/-
Verification of the RaphUtils specification against the source.

Shallow embedding conventions:
* Python strings are embedded as `List Char`; `str.split(c)` and
  `c.join(l)` become `splitOnChar` and `joinWith` below, with the same
  semantics (`"".split(c) == [""]`, join is the inverse of split on the
  separator).
* Python numbers are embedded as `ℚ` where the source only does field
  arithmetic, and as `ℝ` where the source uses `math.log`.
* Fallible code returns `Except`; the error constructors mirror the
  exceptions the interpreter would raise (`ValueError`, `IndexError`,
  `AttributeError`, `TypeError`, `ZeroDivisionError`).
* `list.remove(x)` (first occurrence, only called under an `in` guard in
  the source) becomes `List.erase`.
-/
import Mathlib

set_option autoImplicit false

instance {ε α : Type} [DecidableEq ε] [DecidableEq α] : DecidableEq (Except ε α) :=
  fun x y =>
    match x, y with
    | .ok a, .ok b =>
      if h : a = b then .isTrue (by rw [h]) else .isFalse (fun hh => h (Except.ok.inj hh))
    | .error a, .error b =>
      if h : a = b then .isTrue (by rw [h]) else .isFalse (fun hh => h (Except.error.inj hh))
    | .ok _, .error _ => .isFalse (fun hh => Except.noConfusion hh)
    | .error _, .ok _ => .isFalse (fun hh => Except.noConfusion hh)

/-- Embedding of Python `s.split(c)` for a one-character separator:
splits `s` at every occurrence of `c`; the empty string splits to
`[[]]`, and separators at the ends produce empty pieces. -/
def splitOnChar (c : Char) : List Char → List (List Char)
  | [] => [[]]
  | x :: xs =>
    let r := splitOnChar c xs
    if x = c then [] :: r
    else
      match r with
      | [] => [[x]]
      | h :: t => (x :: h) :: t

/-- Embedding of Python `c.join(l)` for a one-character separator. -/
def joinWith (c : Char) : List (List Char) → List Char
  | [] => []
  | [x] => x
  | x :: xs => x ++ c :: joinWith c xs

/-- Errors raised by `units_combining` (`ValueError` for more than two
units, `IndexError` for out-of-range list indexing). -/
inductive UErr where
  | valueError
  | indexError
deriving DecidableEq

/-- The cancellation loop of `units_combining` for the `/` operation
(functions.py lines 79-82): iterate over a copy of the numerator; each
token also present in the denominator is removed (first occurrence) from
both sides.  `orig` is the copied list being iterated, `num`/`den` the
mutating numerator and denominator. -/
def cancelLoop : List (List Char) → List (List Char) → List (List Char) →
    List (List Char) × List (List Char)
  | [], num, den => (num, den)
  | u :: rest, num, den =>
    if u ∈ den then cancelLoop rest (num.erase u) (den.erase u)
    else cancelLoop rest num den

/-- The positional cancellation loop of `units_combining` for the `*`
operation (functions.py lines 92-100): element `i` of the copied
numerator is compared with denominator index `i+1` when `i = 0` and
`i-1` otherwise; Python raises `IndexError` when that index is out of
range of the (mutating) denominator. -/
def mulCancelAux (i : ℕ) (orig num den : List (List Char)) :
    Except UErr (List (List Char) × List (List Char)) :=
  match orig with
  | [] => .ok (num, den)
  | u :: rest =>
    let idx := if i = 0 then i + 1 else i - 1
    match den[idx]? with
    | none => .error .indexError
    | some v =>
      if u = v then mulCancelAux (i + 1) rest (num.erase u) (den.erase u)
      else mulCancelAux (i + 1) rest num den

/-- First phase of `units_combining` (functions.py lines 51-72): the two
units are already split on `/`; build the raw combined string
(`message`).  The shape cases mirror the source's
`len(units[0])`/`len(units[1])` case split, including the `IndexError`
raised when fewer than two units are passed and the first condition
touches `units[1]`, and the fall-through that leaves `message = ''` for
shapes with three or more `/`-parts. -/
def unitsPhase1 (us : List (List (List Char))) (operation : Char) :
    Except UErr (List Char) :=
  if operation = '/' ∨ operation = '*' then
    match us with
    | [] => .error .indexError
    | [u0] =>
      if u0.length = 1 ∨ u0.length = 2 then .error .indexError else .ok []
    | u0 :: u1 :: _ =>
      match u0, u1 with
      | [a], [b] =>
        .ok (if operation = '/' then a ++ '/' :: b else a ++ '.' :: b)
      | [a], [bn, bd] =>
        .ok (if operation = '/' then a ++ '.' :: bd ++ '/' :: bn
             else a ++ '.' :: bn ++ '/' :: bd)
      | [an, ad], [b] =>
        if operation = '/' then .ok (an ++ '/' :: (ad ++ b))
        else .ok (an ++ '.' :: b ++ '/' :: ad)
      | [an, ad], [bn, bd] =>
        .ok (if operation = '/' then an ++ '.' :: bd ++ '/' :: ad ++ '.' :: bn
             else an ++ '.' :: bn ++ '/' :: ad ++ '.' :: bd)
      | _, _ => .ok []
  else .ok []

/-- Second phase of `units_combining` (functions.py lines 74-101): split
`message` back into numerator/denominator token groups and cancel. -/
def unitsPhase2 (message : List Char) (operation : Char) :
    Except UErr (List Char) :=
  let parts := (splitOnChar '/' message).map (splitOnChar '.')
  if operation = '/' then
    match parts with
    | num :: den :: _ =>
      let r := cancelLoop num num den
      .ok (joinWith '.' r.1 ++ '/' :: joinWith '.' r.2)
    | _ => .error .indexError
  else
    match parts with
    | [] => .error .indexError
    | num :: rest =>
      if num.length = 1 then .ok (joinWith '.' num)
      else if rest.isEmpty then .ok (joinWith '.' num)
      else
        match rest with
        | den :: _ =>
          match mulCancelAux 0 num num den with
          | .ok r => .ok (joinWith '.' r.1 ++ '/' :: joinWith '.' r.2)
          | .error e => .error e
        | [] => .error .indexError

/-- Final simplification of `units_combining` (functions.py line 102):
if any `/`-piece of the message is empty, keep only the first piece. -/
def unitsFinal (message : List Char) : List Char :=
  let pieces := splitOnChar '/' message
  if [] ∈ pieces then pieces.headD [] else message

/-- Embedding of `units_combining(units, operation)`
(functions.py lines 38-103). -/
def units_combining (units : List (List Char)) (operation : Char) :
    Except UErr (List Char) :=
  if units.length > 2 then .error .valueError
  else if operation = '+' then
    match units with
    | [] => .error .indexError
    | u :: _ => .ok u
  else if operation = '-' then
    match units with
    | [] => .error .indexError
    | u :: _ => .ok u
  else
    match unitsPhase1 (units.map (splitOnChar '/')) operation with
    | .error e => .error e
    | .ok msg =>
      match unitsPhase2 msg operation with
      | .error e => .error e
      | .ok msg2 => .ok (unitsFinal msg2)

/-- Modelled from the spec: the external `mean` collaborator (imported in
classes.py line 6 but missing from src/): the arithmetic mean, a pure
numeric reduction over a sequence of numbers.  Per the spec's collaborator
contract it accepts a non-empty sequence, so the empty sequence is mapped
to `none` (undefined). -/
def mean (l : List ℚ) : Option ℚ :=
  if l.length = 0 then none else some (l.sum / l.length)

/-- Modelled from the spec: the external `std` collaborator (imported in
classes.py line 6 but missing from src/): a pure numeric reduction defined
on non-empty sequences, `none` (undefined) on the empty sequence.  The
spec does not fix its formula and no claim depends on the value; the mean
squared deviation is used as the concrete reduction. -/
def std (l : List ℚ) : Option ℚ :=
  if l.length = 0 then none
  else some ((l.map (fun x => (x - l.sum / l.length) ^ 2)).sum / l.length)

/-- The filtered contribution list built by `Denombrement.get_ufc_per_ml`
(classes.py lines 319-326): entries with a present count inside
`[30, 600]` contribute `ufc * 10 ** (-dilution)`; `None` entries and
counts outside the window are skipped. -/
def valid_ufcs (dilutions : List (ℤ × Option ℚ)) : List ℚ :=
  dilutions.filterMap (fun p =>
    match p.2 with
    | none => none
    | some ufc =>
      if ufc < 30 ∨ ufc > 600 then none else some (ufc * (10 : ℚ) ^ (-p.1)))

/-- Embedding of `Denombrement.get_ufc_per_ml` (classes.py lines 318-327);
the dilution dict is an insertion-ordered association list. -/
def get_ufc_per_ml (dilutions : List (ℤ × Option ℚ)) : Option ℚ × Option ℚ :=
  (mean (valid_ufcs dilutions), std (valid_ufcs dilutions))

/-- Embedding of the growth-rate list `µ` built by
`GrowthMonitoring.__init__` (classes.py lines 22-28): rate 0 for the first
sample, then for each consecutive pair the rate
`(log data[i+1] - log data[i]) / (time[i+1] - time[i])`, clamped below
at 0. -/
noncomputable def growthRates (data time : List ℝ) : List ℝ :=
  0 :: (List.range (data.length - 1)).map (fun i =>
    let d := (Real.log (data.getD (i + 1) 0) - Real.log (data.getD i 0)) /
      (time.getD (i + 1) 0 - time.getD i 0)
    if d < 0 then 0 else d)

/-- Embedding of the doubling-time list `td` built by
`GrowthMonitoring.__init__` (classes.py lines 30-37): `log 2 / µ[i]` when
`µ[i] ≠ 0`, else the sentinel 0. -/
noncomputable def doublingTimes (mu : List ℝ) : List ℝ :=
  mu.map (fun r => if r ≠ 0 then Real.log 2 / r else 0)

/-- The external numeric-reduction collaborators used by `Stat`
(imported in classes.py line 6 but not part of src/); the spec treats
them as opaque pure reductions, so the `Stat` model is parameterised over
them. -/
structure StatCollab where
  mean : List ℚ → ℚ
  std : List ℚ → ℚ
  median : List ℚ → ℚ
  first_quartile : List ℚ → ℚ
  third_quartile : List ℚ → ℚ
  iqr : List ℚ → ℚ
  outliers : List ℚ → List ℚ
  remove_outliers : List ℚ → List ℚ

/-- Embedding of the `Stat` entity (classes.py lines 106-120): the data
sequence, optional unit string, discreteness flag, and the cached derived
statistics. -/
structure Stat where
  name : List Char
  data : List ℚ
  unit : Option (List Char)
  discrete : Bool
  mean : ℚ
  std : ℚ
  median : ℚ
  first_quartile : ℚ
  third_quartile : ℚ
  iqr : ℚ
  outliers : List ℚ
  data_no_outliers : List ℚ
deriving DecidableEq

/-- Embedding of `Stat.__init__` (classes.py lines 107-120). -/
def Stat.make (C : StatCollab) (name : List Char) (data : List ℚ)
    (unit : Option (List Char)) (discrete : Bool) : Stat :=
  { name := name
    data := data
    unit := unit
    discrete := discrete
    mean := C.mean data
    std := C.std data
    median := C.median data
    first_quartile := C.first_quartile data
    third_quartile := C.third_quartile data
    iqr := C.iqr data
    outliers := C.outliers data
    data_no_outliers := C.remove_outliers data }

/-- The statistics-recomputation block shared by the four arithmetic
operators (classes.py lines 155-163, 170-178, 183-191, 197-205): replace
`data` and recompute every derived statistic; the unit is not touched
here. -/
def Stat.recompute (C : StatCollab) (s : Stat) (d : List ℚ) : Stat :=
  { s with
    data := d
    mean := C.mean d
    std := C.std d
    median := C.median d
    first_quartile := C.first_quartile d
    third_quartile := C.third_quartile d
    iqr := C.iqr d
    outliers := C.outliers d
    data_no_outliers := C.remove_outliers d }

/-- A Python value as far as the `Stat` operators are concerned: a `Stat`,
`None` (the implicit return value of the operators), or some other
non-`Stat` object. -/
inductive PyVal where
  | stat (s : Stat)
  | pynone
  | someOther
deriving DecidableEq

/-- Errors raised by the `Stat` operators: `TypeError` for a non-`Stat`
operand, `ValueError` for mismatched units on `+`/`-`,
`ZeroDivisionError` for a zero divisor element, `AttributeError` when
`units_combining` is handed a `None` unit, and the errors of
`units_combining` itself. -/
inductive StatErr where
  | typeMismatch
  | unitMismatch
  | zeroDivision
  | attributeError
  | uerr (e : UErr)
deriving DecidableEq

/-- Embedding of `Stat.__add__` (classes.py lines 150-163).  The result
pair is (expression value or raised error, state of the receiver after
the call); the method body ends without `return`, so the success value is
`None`. -/
def statAdd (C : StatCollab) (self : Stat) (other : PyVal) :
    Except StatErr PyVal × Stat :=
  match other with
  | .stat o =>
    if self.unit ≠ o.unit then (.error .unitMismatch, self)
    else (.ok .pynone, self.recompute C (List.zipWith (· + ·) self.data o.data))
  | _ => (.error .typeMismatch, self)

/-- Embedding of `Stat.__sub__` (classes.py lines 165-178). -/
def statSub (C : StatCollab) (self : Stat) (other : PyVal) :
    Except StatErr PyVal × Stat :=
  match other with
  | .stat o =>
    if self.unit ≠ o.unit then (.error .unitMismatch, self)
    else (.ok .pynone, self.recompute C (List.zipWith (· - ·) self.data o.data))
  | _ => (.error .typeMismatch, self)

/-- Embedding of `Stat.__mul__` (classes.py lines 180-192): after the type
check, `data` and every derived statistic are reassigned, and only then is
`units_combining` consulted; a failure there (an `AttributeError` on a
`None` unit, or an error inside `units_combining`) propagates with the
receiver left in the partially mutated state. -/
def statMul (C : StatCollab) (self : Stat) (other : PyVal) :
    Except StatErr PyVal × Stat :=
  match other with
  | .stat o =>
    let s1 := self.recompute C (List.zipWith (· * ·) self.data o.data)
    match self.unit, o.unit with
    | some a, some b =>
      match units_combining [a, b] '*' with
      | .ok u => (.ok .pynone, { s1 with unit := some u })
      | .error e => (.error (.uerr e), s1)
    | _, _ => (.error .attributeError, s1)
  | _ => (.error .typeMismatch, self)

/-- Embedding of `Stat.__truediv__` (classes.py lines 194-206): Python
raises `ZeroDivisionError` while evaluating the data comprehension
(before any field is reassigned) if some zipped divisor element is zero;
otherwise it proceeds as `__mul__` does, with the unit combined last. -/
def statDiv (C : StatCollab) (self : Stat) (other : PyVal) :
    Except StatErr PyVal × Stat :=
  match other with
  | .stat o =>
    if (self.data.zip o.data).any (fun p => p.2 == 0) then
      (.error .zeroDivision, self)
    else
      let s1 := self.recompute C (List.zipWith (· / ·) self.data o.data)
      match self.unit, o.unit with
      | some a, some b =>
        match units_combining [a, b] '/' with
        | .ok u => (.ok .pynone, { s1 with unit := some u })
        | .error e => (.error (.uerr e), s1)
      | _, _ => (.error .attributeError, s1)
  | _ => (.error .typeMismatch, self)

/-- Python evaluation of a binary `+` whose left operand may not be a
`Stat`: dispatch to `Stat.__add__` when the left operand is a `Stat`
(the expression's value is the method's return value), and raise
`TypeError` (unsupported operand types) otherwise — in particular when
the left operand is the `None` produced by a previous `Stat` addition. -/
def pyAdd (C : StatCollab) (left right : PyVal) : Except StatErr PyVal :=
  match left with
  | .stat s => (statAdd C s right).1
  | _ => .error .typeMismatch

/-- A concrete instance of the external collaborators, used only to
instantiate witnesses and counterexamples; no claim depends on the
collaborator values. -/
def sampleCollab : StatCollab :=
  { mean := fun l => l.sum / l.length
    std := fun l => (l.map (fun x => (x - l.sum / l.length) ^ 2)).sum / l.length
    median := fun l => l.sum / l.length
    first_quartile := fun l => (l.map (fun x => min x 0)).sum
    third_quartile := fun l => (l.map (fun x => max x 0)).sum
    iqr := fun l => (l.map (fun x => max x 0)).sum - (l.map (fun x => min x 0)).sum
    outliers := fun _ => []
    remove_outliers := fun l => l }

/-- A `Stat` with unit `"g"` and data `[2]`. -/
def exG : Stat := Stat.make sampleCollab ['a'] [2] (some ['g']) false

/-- A second `Stat` with unit `"g"` and data `[4]`. -/
def exG2 : Stat := Stat.make sampleCollab ['c'] [4] (some ['g']) false

/-- A `Stat` with unit `"m/s"` and data `[3]`. -/
def exMS : Stat := Stat.make sampleCollab ['b'] [3] (some ['m', '/', 's']) false

/-- A `Stat` with unit `"mL"` and data `[5]`. -/
def exML : Stat := Stat.make sampleCollab ['d'] [5] (some ['m', 'L']) false

theorem splitOnChar_ne_nil (c : Char) (s : List Char) : splitOnChar c s ≠ [] := by
  cases s with
  | nil => simp [splitOnChar]
  | cons x xs =>
    simp only [splitOnChar]
    split
    · simp
    · split <;> simp

theorem splitOnChar_cons_of_ne (c x : Char) (xs : List Char) (hx : ¬ x = c) :
    splitOnChar c (x :: xs) =
      (x :: (splitOnChar c xs).headD []) :: (splitOnChar c xs).tail := by
  simp only [splitOnChar, if_neg hx]
  cases hr : splitOnChar c xs with
  | nil => exact absurd hr (splitOnChar_ne_nil c xs)
  | cons a r => simp

theorem splitOnChar_of_not_mem {c : Char} {s : List Char} (h : c ∉ s) :
    splitOnChar c s = [s] := by
  induction s with
  | nil => rfl
  | cons x xs ih =>
    have hx : ¬ x = c := fun hh => h (hh ▸ List.mem_cons_self x xs)
    have hxs : c ∉ xs := fun hh => h (List.mem_cons_of_mem _ hh)
    rw [splitOnChar_cons_of_ne c x xs hx, ih hxs]
    simp

theorem splitOnChar_append_cons (c : Char) (s t : List Char) :
    splitOnChar c (s ++ c :: t) = splitOnChar c s ++ splitOnChar c t := by
  induction s with
  | nil => simp [splitOnChar]
  | cons x xs ih =>
    by_cases hx : x = c
    · subst hx
      simp [splitOnChar, ih]
    · rw [List.cons_append, splitOnChar_cons_of_ne c x _ hx, ih,
        splitOnChar_cons_of_ne c x xs hx]
      cases hr : splitOnChar c xs with
      | nil => exact absurd hr (splitOnChar_ne_nil c xs)
      | cons a r => simp

theorem joinWith_cons (c : Char) (p : List Char) (r : List (List Char))
    (h : r ≠ []) : joinWith c (p :: r) = p ++ c :: joinWith c r := by
  cases r with
  | nil => exact absurd rfl h
  | cons a l => rfl

theorem joinWith_splitOnChar (c : Char) (s : List Char) :
    joinWith c (splitOnChar c s) = s := by
  induction s with
  | nil => rfl
  | cons x xs ih =>
    by_cases hx : x = c
    · subst hx
      have hsp : splitOnChar x (x :: xs) = [] :: splitOnChar x xs := by
        simp [splitOnChar]
      rw [hsp, joinWith_cons x [] _ (splitOnChar_ne_nil x xs), ih]
      rfl
    · rw [splitOnChar_cons_of_ne c x xs hx]
      cases hr : splitOnChar c xs with
      | nil => exact absurd hr (splitOnChar_ne_nil c xs)
      | cons a r =>
        rw [hr] at ih
        cases r with
        | nil =>
          simp only [List.headD, List.tail]
          simpa [joinWith] using congrArg (x :: ·) ih
        | cons b l =>
          simp only [List.headD, List.tail]
          have ih2 : a ++ c :: joinWith c (b :: l) = xs := by
            rw [← joinWith_cons c a (b :: l) (by simp)]
            exact ih
          rw [joinWith_cons c (x :: a) (b :: l) (by simp), List.cons_append, ih2]

theorem splitOnChar_joinWith (c : Char) (l : List (List Char)) (hne : l ≠ [])
    (hc : ∀ p ∈ l, c ∉ p) : splitOnChar c (joinWith c l) = l := by
  induction l with
  | nil => exact absurd rfl hne
  | cons p r ih =>
    cases r with
    | nil =>
      have h1 := splitOnChar_of_not_mem (hc p (by simp))
      simpa [joinWith] using h1
    | cons q r' =>
      rw [joinWith_cons _ _ _ (by simp), splitOnChar_append_cons,
        splitOnChar_of_not_mem (hc p (by simp)),
        ih (by simp) (fun a ha => hc a (by simp [ha]))]
      rfl

theorem not_mem_of_mem_splitOnChar {c : Char} {s p : List Char}
    (hp : p ∈ splitOnChar c s) : c ∉ p := by
  induction s generalizing p with
  | nil =>
    simp only [splitOnChar, List.mem_singleton] at hp
    subst hp; simp
  | cons x xs ih =>
    by_cases hx : x = c
    · subst hx
      simp only [splitOnChar, if_pos rfl] at hp
      rcases List.mem_cons.mp hp with h | h
      · subst h; simp
      · exact ih h
    · rw [splitOnChar_cons_of_ne c x xs hx] at hp
      cases hr : splitOnChar c xs with
      | nil => exact absurd hr (splitOnChar_ne_nil c xs)
      | cons a r =>
        rw [hr] at hp
        simp only [List.headD, List.tail] at hp
        rcases List.mem_cons.mp hp with h | h
        · subst h
          intro hmem
          rcases List.mem_cons.mp hmem with h1 | h1
          · exact hx h1.symm
          · exact ih (hr ▸ List.mem_cons_self a r) h1
        · exact ih (hr ▸ List.mem_cons_of_mem a h)

theorem mem_of_mem_splitOnChar {c a : Char} {s p : List Char}
    (hp : p ∈ splitOnChar c s) (ha : a ∈ p) : a ∈ s := by
  induction s generalizing p with
  | nil =>
    simp only [splitOnChar, List.mem_singleton] at hp
    subst hp; simp at ha
  | cons x xs ih =>
    by_cases hx : x = c
    · subst hx
      simp only [splitOnChar, if_pos rfl] at hp
      rcases List.mem_cons.mp hp with h | h
      · subst h; simp at ha
      · exact List.mem_cons_of_mem _ (ih h ha)
    · rw [splitOnChar_cons_of_ne c x xs hx] at hp
      cases hr : splitOnChar c xs with
      | nil => exact absurd hr (splitOnChar_ne_nil c xs)
      | cons b r =>
        rw [hr] at hp
        simp only [List.headD, List.tail] at hp
        rcases List.mem_cons.mp hp with h | h
        · subst h
          rcases List.mem_cons.mp ha with h1 | h1
          · exact h1 ▸ List.mem_cons_self x xs
          · exact List.mem_cons_of_mem _ (ih (hr ▸ List.mem_cons_self b r) h1)
        · exact List.mem_cons_of_mem _ (ih (hr ▸ List.mem_cons_of_mem b h) ha)

theorem mem_joinWith {c a : Char} {l : List (List Char)}
    (ha : a ∈ joinWith c l) : a = c ∨ ∃ p ∈ l, a ∈ p := by
  induction l with
  | nil => simp [joinWith] at ha
  | cons p r ih =>
    cases r with
    | nil => exact .inr ⟨p, by simp, by simpa [joinWith] using ha⟩
    | cons q r' =>
      rw [joinWith_cons _ _ _ (by simp)] at ha
      rcases List.mem_append.mp ha with h | h
      · exact .inr ⟨p, by simp, h⟩
      · rcases List.mem_cons.mp h with h1 | h1
        · exact .inl h1
        · rcases ih h1 with h2 | ⟨p', hp', ha'⟩
          · exact .inl h2
          · exact .inr ⟨p', by simp [hp'], ha'⟩

theorem coe_erase_lists (l : List (List Char)) (a : List Char) :
    ((l.erase a : List (List Char)) : Multiset (List Char)) =
      (l : Multiset (List Char)).erase a := by
  induction l with
  | nil => simp
  | cons b t ih =>
    by_cases hb : b = a
    · subst hb
      rw [List.erase_cons_head, ← Multiset.cons_coe, Multiset.erase_cons_head]
    · rw [List.erase_cons_tail (by simpa using hb), ← Multiset.cons_coe,
        ← Multiset.cons_coe, Multiset.erase_cons_tail _ hb, ih]

theorem cancelLoop_result (orig : List (List Char)) :
    ∀ num den : List (List Char),
      (den : Multiset (List Char)) ≤ (orig : Multiset (List Char)) →
      (cancelLoop orig num den).2 = [] ∧
        ((cancelLoop orig num den).1 : Multiset (List Char)) =
          (num : Multiset (List Char)) - (den : Multiset (List Char)) := by
  induction orig with
  | nil =>
    intro num den h
    have h0 : (den : Multiset (List Char)) = 0 := by
      rw [← Multiset.le_zero]
      simpa using h
    have hd : den = [] := (Multiset.coe_eq_zero den).mp h0
    subst hd
    simp [cancelLoop]
  | cons u rest ih =>
    intro num den h
    by_cases hu : u ∈ den
    · have humem : u ∈ (den : Multiset (List Char)) := by simpa using hu
      have h1 : ((den.erase u : List (List Char)) : Multiset (List Char)) ≤
          (rest : Multiset (List Char)) := by
        rw [coe_erase_lists]
        have h2 := Multiset.erase_le_erase u h
        rwa [← Multiset.cons_coe, Multiset.erase_cons_head] at h2
      obtain ⟨ha, hb⟩ := ih (num.erase u) (den.erase u) h1
      simp only [cancelLoop, if_pos hu]
      refine ⟨ha, ?_⟩
      rw [hb, coe_erase_lists, coe_erase_lists, ← Multiset.sub_cons,
        Multiset.cons_erase humem]
    · have h1 : (den : Multiset (List Char)) ≤ (rest : Multiset (List Char)) := by
        rw [Multiset.le_iff_count]
        intro a
        by_cases hau : a = u
        · subst hau
          have h0 : Multiset.count a (den : Multiset (List Char)) = 0 :=
            Multiset.count_eq_zero_of_not_mem (by simpa using hu)
          simp [h0]
        · have hc := Multiset.le_iff_count.mp h a
          rwa [← Multiset.cons_coe, Multiset.count_cons_of_ne hau] at hc
      simp only [cancelLoop, if_neg hu]
      exact ih num den h1

theorem unitsPhase1_single_mul (a b : List Char) :
    unitsPhase1 [[a], [b]] '*' = .ok (a ++ '.' :: b) := rfl

theorem unitsPhase1_single_div (a b : List Char) :
    unitsPhase1 [[a], [b]] '/' = .ok (a ++ '/' :: b) := rfl

theorem unitsPhase1_pair_div (an ad bn bd : List Char) :
    unitsPhase1 [[an, ad], [bn, bd]] '/' =
      .ok (an ++ '.' :: bd ++ '/' :: ad ++ '.' :: bn) := rfl

theorem units_combining_ok (u v : List Char) (op : Char) (h1 : ¬ op = '+')
    (h2 : ¬ op = '-') (m m2 : List Char)
    (hp1 : unitsPhase1 [splitOnChar '/' u, splitOnChar '/' v] op = .ok m)
    (hp2 : unitsPhase2 m op = .ok m2) :
    units_combining [u, v] op = .ok (unitsFinal m2) := by
  have hlen : ¬ ([u, v].length > 2) := by simp
  simp only [units_combining, List.map_cons, List.map_nil, if_neg hlen,
    if_neg h1, if_neg h2, hp1, hp2]

theorem unitsPhase2_mul_noslash (N : List Char) (hN : '/' ∉ N) :
    unitsPhase2 N '*' = .ok (joinWith '.' (splitOnChar '.' N)) := by
  simp only [unitsPhase2]
  rw [splitOnChar_of_not_mem hN, if_neg (show ¬('*' : Char) = '/' by decide)]
  simp

theorem unitsPhase2_div (N D : List Char) (hN : '/' ∉ N) (hD : '/' ∉ D) :
    unitsPhase2 (N ++ '/' :: D) '/' =
      .ok (joinWith '.'
          (cancelLoop (splitOnChar '.' N) (splitOnChar '.' N) (splitOnChar '.' D)).1 ++
        '/' :: joinWith '.'
          (cancelLoop (splitOnChar '.' N) (splitOnChar '.' N) (splitOnChar '.' D)).2) := by
  simp only [unitsPhase2]
  rw [splitOnChar_append_cons, splitOnChar_of_not_mem hN, splitOnChar_of_not_mem hD]
  simp

theorem unitsFinal_noslash (s : List Char) (hs : '/' ∉ s) (hne : s ≠ []) :
    unitsFinal s = s := by
  simp only [unitsFinal]
  rw [splitOnChar_of_not_mem hs,
    if_neg (fun h => hne (List.mem_singleton.mp h).symm)]

theorem unitsFinal_slash_end (J : List Char) (hJ : '/' ∉ J) :
    unitsFinal (J ++ ['/']) = J := by
  simp only [unitsFinal]
  have hsp : splitOnChar '/' (J ++ ['/']) = [J, []] := by
    have h2 := splitOnChar_append_cons '/' J []
    rw [splitOnChar_of_not_mem hJ] at h2
    simpa [splitOnChar] using h2
  rw [hsp]
  simp

theorem no_slash_append_dot {A B : List Char} (hA : '/' ∉ A) (hB : '/' ∉ B) :
    '/' ∉ A ++ '.' :: B := by
  intro h
  rcases List.mem_append.mp h with h1 | h1
  · exact hA h1
  · rcases List.mem_cons.mp h1 with h2 | h2
    · exact absurd h2 (by decide)
    · exact hB h2

theorem uc_single_mul (A B : List Char) (hA : '/' ∉ A) (hB : '/' ∉ B) :
    units_combining [A, B] '*' = .ok (A ++ '.' :: B) := by
  have hm : '/' ∉ A ++ '.' :: B := no_slash_append_dot hA hB
  have hp1 : unitsPhase1 [splitOnChar '/' A, splitOnChar '/' B] '*' =
      .ok (A ++ '.' :: B) := by
    rw [splitOnChar_of_not_mem hA, splitOnChar_of_not_mem hB, unitsPhase1_single_mul]
  have hp2 : unitsPhase2 (A ++ '.' :: B) '*' = .ok (A ++ '.' :: B) := by
    rw [unitsPhase2_mul_noslash _ hm, joinWith_splitOnChar]
  rw [units_combining_ok A B '*' (by decide) (by decide) _ _ hp1 hp2,
    unitsFinal_noslash _ hm (by simp)]

theorem uc_div_step (N B : List Char) (hN : '/' ∉ N) (hB : '/' ∉ B)
    (hle : ((splitOnChar '.' B : List (List Char)) : Multiset (List Char)) ≤
      ((splitOnChar '.' N : List (List Char)) : Multiset (List Char))) :
    units_combining [N, B] '/' =
      .ok (joinWith '.'
        (cancelLoop (splitOnChar '.' N) (splitOnChar '.' N) (splitOnChar '.' B)).1) := by
  obtain ⟨hden, hnum⟩ :=
    cancelLoop_result (splitOnChar '.' N) (splitOnChar '.' N) (splitOnChar '.' B) hle
  have hJ : '/' ∉ joinWith '.'
      (cancelLoop (splitOnChar '.' N) (splitOnChar '.' N) (splitOnChar '.' B)).1 := by
    intro h
    rcases mem_joinWith h with h1 | ⟨p, hp, hmem⟩
    · exact absurd h1 (by decide)
    · have hple : (((cancelLoop (splitOnChar '.' N) (splitOnChar '.' N)
          (splitOnChar '.' B)).1 : List (List Char)) : Multiset (List Char)) ≤
          ((splitOnChar '.' N : List (List Char)) : Multiset (List Char)) := by
        rw [hnum]; exact tsub_le_self
      have hmem2 : p ∈ ((splitOnChar '.' N : List (List Char)) : Multiset (List Char)) :=
        Multiset.mem_of_le hple (by simpa using hp)
      exact hN (mem_of_mem_splitOnChar (by simpa using hmem2) hmem)
  have hp1 : unitsPhase1 [splitOnChar '/' N, splitOnChar '/' B] '/' =
      .ok (N ++ '/' :: B) := by
    rw [splitOnChar_of_not_mem hN, splitOnChar_of_not_mem hB, unitsPhase1_single_div]
  have hp2 := unitsPhase2_div N B hN hB
  rw [hden] at hp2
  rw [units_combining_ok N B '/' (by decide) (by decide) _ _ hp1 hp2]
  have hnil : joinWith '.' ([] : List (List Char)) = [] := rfl
  rw [hnil, unitsFinal_slash_end _ hJ]

theorem uc_pair_self_div (X Y : List Char) (hX : '/' ∉ X) (hY : '/' ∉ Y) :
    units_combining [X ++ '/' :: Y, X ++ '/' :: Y] '/' = .ok [] := by
  have hsplit : splitOnChar '/' (X ++ '/' :: Y) = [X, Y] := by
    rw [splitOnChar_append_cons, splitOnChar_of_not_mem hX, splitOnChar_of_not_mem hY]
    rfl
  have hN : '/' ∉ X ++ '.' :: Y := no_slash_append_dot hX hY
  have hD : '/' ∉ Y ++ '.' :: X := no_slash_append_dot hY hX
  have hp1 : unitsPhase1 [splitOnChar '/' (X ++ '/' :: Y),
      splitOnChar '/' (X ++ '/' :: Y)] '/' =
      .ok ((X ++ '.' :: Y) ++ '/' :: (Y ++ '.' :: X)) := by
    rw [hsplit, unitsPhase1_pair_div]
    simp [List.append_assoc]
  have hcoe : ((splitOnChar '.' (Y ++ '.' :: X) : List (List Char)) :
        Multiset (List Char)) =
      ((splitOnChar '.' (X ++ '.' :: Y) : List (List Char)) :
        Multiset (List Char)) := by
    rw [splitOnChar_append_cons, splitOnChar_append_cons, ← Multiset.coe_add,
      ← Multiset.coe_add, add_comm]
  obtain ⟨hden, hnum⟩ := cancelLoop_result (splitOnChar '.' (X ++ '.' :: Y))
    (splitOnChar '.' (X ++ '.' :: Y)) (splitOnChar '.' (Y ++ '.' :: X))
    (le_of_eq hcoe)
  have hnum0 : (cancelLoop (splitOnChar '.' (X ++ '.' :: Y))
      (splitOnChar '.' (X ++ '.' :: Y)) (splitOnChar '.' (Y ++ '.' :: X))).1 = [] := by
    refine (Multiset.coe_eq_zero _).mp ?_
    rw [hnum, hcoe, tsub_self]
  have hp2 := unitsPhase2_div (X ++ '.' :: Y) (Y ++ '.' :: X) hN hD
  rw [hden, hnum0] at hp2
  rw [units_combining_ok _ _ '/' (by decide) (by decide) _ _ hp1 hp2]
  decide

/-- C8: for every valid unit string `A` (a single token without `/`, or of
the form `X/Y`), `units_combining([A, A], '/')` fully cancels the unit
against itself and returns the empty unit string. -/
theorem units_self_division (A : List Char)
    (h : '/' ∉ A ∨ ∃ X Y, '/' ∉ X ∧ '/' ∉ Y ∧ A = X ++ '/' :: Y) :
    units_combining [A, A] '/' = .ok [] := by
  rcases h with h | ⟨X, Y, hX, hY, rfl⟩
  · rw [uc_div_step A A h h le_rfl]
    obtain ⟨hden, hnum⟩ := cancelLoop_result (splitOnChar '.' A)
      (splitOnChar '.' A) (splitOnChar '.' A) le_rfl
    have h0 : (cancelLoop (splitOnChar '.' A) (splitOnChar '.' A)
        (splitOnChar '.' A)).1 = [] := by
      refine (Multiset.coe_eq_zero _).mp ?_
      rw [hnum, tsub_self]
    rw [h0]
    rfl
  · exact uc_pair_self_div X Y hX hY

/-- Witness for `units_self_division` at the concrete unit `"g"`. -/
theorem units_self_division_witness :
    ('/' ∉ (['g'] : List Char) ∨
      ∃ X Y : List Char, '/' ∉ X ∧ '/' ∉ Y ∧ (['g'] : List Char) = X ++ '/' :: Y) ∧
    units_combining [['g'], ['g']] '/' = .ok [] :=
  ⟨.inl (by decide), units_self_division ['g'] (.inl (by decide))⟩

/-- C2 counterexample: for the valid unit pair `A = "g"`, `B = "m/s"` the
very first step of the claimed round trip, `units_combining([A, B], '*')`,
raises `IndexError` (the positional cancellation loop indexes position 1
of the one-element denominator group), so no round-trip result exists. -/
theorem units_roundtrip_counterexample :
    units_combining [['g'], ['m', '/', 's']] '*' = .error .indexError := by decide

/-- C2 (amended): for every pair of single-token unit strings `A`, `B`
(no `/` in either), `units_combining([A, B], '*')` followed by
`units_combining([result, B], '/')` returns a unit string with no
denominator whose multiset of `.`-separated tokens is exactly that of
`A` (the tokens may be reordered when `B` shares a token with `A`). -/
theorem units_roundtrip_amended (A B : List Char) (hA : '/' ∉ A) (hB : '/' ∉ B) :
    ∃ r1 r2, units_combining [A, B] '*' = .ok r1 ∧
      units_combining [r1, B] '/' = .ok r2 ∧ '/' ∉ r2 ∧
      ((splitOnChar '.' r2 : List (List Char)) : Multiset (List Char)) =
        ((splitOnChar '.' A : List (List Char)) : Multiset (List Char)) := by
  have hN : '/' ∉ A ++ '.' :: B := no_slash_append_dot hA hB
  have hsplitN : splitOnChar '.' (A ++ '.' :: B) =
      splitOnChar '.' A ++ splitOnChar '.' B := splitOnChar_append_cons '.' A B
  have hle : ((splitOnChar '.' B : List (List Char)) : Multiset (List Char)) ≤
      ((splitOnChar '.' (A ++ '.' :: B) : List (List Char)) : Multiset (List Char)) := by
    rw [hsplitN, ← Multiset.coe_add]
    exact self_le_add_left _ _
  obtain ⟨hden, hnum⟩ := cancelLoop_result (splitOnChar '.' (A ++ '.' :: B))
    (splitOnChar '.' (A ++ '.' :: B)) (splitOnChar '.' B) hle
  set n1 := (cancelLoop (splitOnChar '.' (A ++ '.' :: B))
    (splitOnChar '.' (A ++ '.' :: B)) (splitOnChar '.' B)).1 with hn1
  have hnum2 : (n1 : Multiset (List Char)) =
      ((splitOnChar '.' A : List (List Char)) : Multiset (List Char)) := by
    rw [hn1, hnum, hsplitN, ← Multiset.coe_add, add_tsub_cancel_right]
  have hchars : ∀ p ∈ n1, p ∈ splitOnChar '.' A := by
    intro p hp
    have hm : p ∈ ((splitOnChar '.' A : List (List Char)) : Multiset (List Char)) := by
      rw [← hnum2]
      simpa using hp
    simpa using hm
  have hr2slash : '/' ∉ joinWith '.' n1 := by
    intro h
    rcases mem_joinWith h with h1 | ⟨p, hp, hmem⟩
    · exact absurd h1 (by decide)
    · exact hA (mem_of_mem_splitOnChar (hchars p hp) hmem)
  have hr2split : splitOnChar '.' (joinWith '.' n1) = n1 := by
    apply splitOnChar_joinWith
    · intro h0
      rw [h0] at hnum2
      exact splitOnChar_ne_nil '.' A ((Multiset.coe_eq_zero _).mp hnum2.symm)
    · intro p hp
      exact not_mem_of_mem_splitOnChar (hchars p hp)
  exact ⟨A ++ '.' :: B, joinWith '.' n1, uc_single_mul A B hA hB,
    uc_div_step (A ++ '.' :: B) B hN hB hle, hr2slash, by rw [hr2split, hnum2]⟩

/-- Witness for `units_roundtrip_amended` at `A = "g"`, `B = "mL"`. -/
theorem units_roundtrip_amended_witness :
    ('/' ∉ (['g'] : List Char)) ∧ ('/' ∉ (['m', 'L'] : List Char)) ∧
    ∃ r1 r2, units_combining [['g'], ['m', 'L']] '*' = .ok r1 ∧
      units_combining [r1, ['m', 'L']] '/' = .ok r2 ∧ '/' ∉ r2 ∧
      ((splitOnChar '.' r2 : List (List Char)) : Multiset (List Char)) =
        ((splitOnChar '.' (['g'] : List Char) : List (List Char)) :
          Multiset (List Char)) :=
  ⟨by decide, by decide,
    units_roundtrip_amended ['g'] ['m', 'L'] (by decide) (by decide)⟩

/-- C9: multiplying the single-token units `"g"` and `"mL"` yields the
unit string `"g.mL"`, dividing `"g"` by `"mL"` yields `"g/mL"`, and for
`'+'` and `'-'` the first unit is returned unchanged. -/
theorem units_mul_div_add_sub_spec :
    units_combining [['g'], ['m', 'L']] '*' = .ok ['g', '.', 'm', 'L'] ∧
    units_combining [['g'], ['m', 'L']] '/' = .ok ['g', '/', 'm', 'L'] ∧
    (∀ a b : List Char, units_combining [a, b] '+' = .ok a) ∧
    (∀ a b : List Char, units_combining [a, b] '-' = .ok a) :=
  ⟨by decide, by decide, fun _ _ => rfl, fun _ _ => rfl⟩

theorem valid_ufcs_example :
    valid_ufcs [(-5, some 354), (-6, some 35), (-7, some 3)] =
      [35400000, 35000000] := by
  simp only [valid_ufcs, List.filterMap_cons, List.filterMap_nil]
  norm_num

/-- C1 counterexample: with dilutions `{-5: 354, -6: 35, -7: 3}` the count
35 at dilution -6 also lies in the validity window (30 ≤ 35 ≤ 600), so two
counts qualify and `get_ufc_per_ml` returns the mean 35,200,000, not
`354 * 10^5 = 35,400,000` as the claim states. -/
theorem get_ufc_example_counterexample :
    (get_ufc_per_ml [(-5, some 354), (-6, some 35), (-7, some 3)]).1 ≠
      some (354 * 10 ^ 5) := by
  simp [get_ufc_per_ml, valid_ufcs_example, mean]
  norm_num

/-- C1 (amended): for dilutions `{-5: 354, -6: 35, -7: 3}` the counts 354
(dilution -5) and 35 (dilution -6) both lie in [30, 600] while 3 does not,
so the contribution list is `[354*10^5, 35*10^6]` and the returned mean is
`(354*10^5 + 35*10^6) / 2 = 35,200,000`. -/
theorem get_ufc_example_amended :
    valid_ufcs [(-5, some 354), (-6, some 35), (-7, some 3)] =
      [354 * 10 ^ 5, 35 * 10 ^ 6] ∧
    (get_ufc_per_ml [(-5, some 354), (-6, some 35), (-7, some 3)]).1 =
      some ((354 * 10 ^ 5 + 35 * 10 ^ 6) / 2) := by
  constructor
  · rw [valid_ufcs_example]
    norm_num
  · simp [get_ufc_per_ml, valid_ufcs_example, mean]
    norm_num

/-- C4: when every dilution entry is either not countable (`None`) or has
a count outside [30, 600], `get_ufc_per_ml` builds an empty contribution
list and hands it straight to the external `mean`/`std` collaborators,
whose behaviour on an empty sequence is undefined (`none` in this model);
the source contains no `EmptySampleError` guard of any kind. -/
theorem get_ufc_empty_result :
    valid_ufcs [(-4, none), (-7, some 3)] = [] ∧
    get_ufc_per_ml [(-4, none), (-7, some 3)] = (none, none) :=
  ⟨by decide, by decide⟩

/-- C3 counterexample: multiplying the Stat with unit `"g"`, data `[2]` by
the Stat with unit `"m/s"`, data `[3]` raises (`units_combining` fails
with `IndexError` after `data` and every statistic were already
reassigned), yet the receiver's data has changed from `[2]` to `[6]`:
the mutation is not all-or-nothing. -/
theorem stat_atomicity_counterexample :
    (statMul sampleCollab exG (.stat exMS)).1 = .error (.uerr .indexError) ∧
    (statMul sampleCollab exG (.stat exMS)).2.data = [6] ∧ exG.data = [2] := by
  refine ⟨by decide, ?_, by decide⟩
  have h : units_combining [['g'], ['m', '/', 's']] '*' = .error .indexError := by
    decide
  simp [statMul, exG, exMS, Stat.make, Stat.recompute, sampleCollab, h]
  norm_num

/-- C3 (amended): `+` and `-` validate before mutating, so any error
leaves the receiver unchanged; `*` and `/` leave the receiver unchanged
when the operand type check fails, and `/` also when a zero divisor is
detected; but a failure inside the unit combination of `*` (or `/`)
happens after `data` and the derived statistics have been reassigned, so
the receiver is left partially mutated there. -/
theorem stat_atomicity_amended (C : StatCollab) (s o : Stat) (v : PyVal) :
    ((∃ e, (statAdd C s v).1 = .error e) → (statAdd C s v).2 = s) ∧
    ((∃ e, (statSub C s v).1 = .error e) → (statSub C s v).2 = s) ∧
    ((statMul C s v).1 = .error .typeMismatch → (statMul C s v).2 = s) ∧
    ((statDiv C s v).1 = .error .typeMismatch → (statDiv C s v).2 = s) ∧
    ((statDiv C s (.stat o)).1 = .error .zeroDivision →
      (statDiv C s (.stat o)).2 = s) ∧
    ((∃ e, (statMul C s (.stat o)).1 = .error e) →
      (statMul C s (.stat o)).2.data = List.zipWith (· * ·) s.data o.data) ∧
    ((∃ e, (statDiv C s (.stat o)).1 = .error e ∧ e ≠ .zeroDivision) →
      (statDiv C s (.stat o)).2.data = List.zipWith (· / ·) s.data o.data) := by
  refine ⟨?_, ?_, ?_, ?_, ?_, ?_, ?_⟩
  · rintro ⟨e, he⟩
    cases v with
    | stat o2 =>
      by_cases hunit : s.unit = o2.unit
      · simp [statAdd, hunit] at he
      · simp [statAdd, hunit]
    | pynone => rfl
    | someOther => rfl
  · rintro ⟨e, he⟩
    cases v with
    | stat o2 =>
      by_cases hunit : s.unit = o2.unit
      · simp [statSub, hunit] at he
      · simp [statSub, hunit]
    | pynone => rfl
    | someOther => rfl
  · intro he
    cases v with
    | stat o2 =>
      exfalso
      cases hsu : s.unit with
      | none => simp [statMul, hsu] at he
      | some a =>
        cases hou : o2.unit with
        | none => simp [statMul, hsu, hou] at he
        | some b =>
          cases huc : units_combining [a, b] '*' with
          | ok u => simp [statMul, hsu, hou, huc] at he
          | error e => simp [statMul, hsu, hou, huc] at he
    | pynone => rfl
    | someOther => rfl
  · intro he
    cases v with
    | stat o2 =>
      exfalso
      by_cases hz : (s.data.zip o2.data).any (fun p => p.2 == 0)
      · simp [statDiv, hz] at he
      · cases hsu : s.unit with
        | none => simp [statDiv, hz, hsu] at he
        | some a =>
          cases hou : o2.unit with
          | none => simp [statDiv, hz, hsu, hou] at he
          | some b =>
            cases huc : units_combining [a, b] '/' with
            | ok u => simp [statDiv, hz, hsu, hou, huc] at he
            | error e => simp [statDiv, hz, hsu, hou, huc] at he
    | pynone => rfl
    | someOther => rfl
  · intro he
    by_cases hz : (s.data.zip o.data).any (fun p => p.2 == 0)
    · simp [statDiv, hz]
    · exfalso
      cases hsu : s.unit with
      | none => simp [statDiv, hz, hsu] at he
      | some a =>
        cases hou : o.unit with
        | none => simp [statDiv, hz, hsu, hou] at he
        | some b =>
          cases huc : units_combining [a, b] '/' with
          | ok u => simp [statDiv, hz, hsu, hou, huc] at he
          | error e => simp [statDiv, hz, hsu, hou, huc] at he
  · rintro ⟨e, he⟩
    cases hsu : s.unit with
    | none => simp [statMul, hsu, Stat.recompute]
    | some a =>
      cases hou : o.unit with
      | none => simp [statMul, hsu, hou, Stat.recompute]
      | some b =>
        cases huc : units_combining [a, b] '*' with
        | ok u => simp [statMul, hsu, hou, huc] at he
        | error e2 => simp [statMul, hsu, hou, huc, Stat.recompute]
  · rintro ⟨e, he, hz⟩
    by_cases hzero : (s.data.zip o.data).any (fun p => p.2 == 0)
    · exfalso
      apply hz
      simp [statDiv, hzero] at he
      exact he.symm
    · cases hsu : s.unit with
      | none => simp [statDiv, hzero, hsu, Stat.recompute]
      | some a =>
        cases hou : o.unit with
        | none => simp [statDiv, hzero, hsu, hou, Stat.recompute]
        | some b =>
          cases huc : units_combining [a, b] '/' with
          | ok u => simp [statDiv, hzero, hsu, hou, huc] at he
          | error e2 => simp [statDiv, hzero, hsu, hou, huc, Stat.recompute]

/-- Witness for `stat_atomicity_amended`: a failed addition (type
mismatch against `None`) leaves the concrete receiver untouched. -/
theorem stat_atomicity_amended_witness :
    (∃ e, (statAdd sampleCollab exG .pynone).1 = .error e) ∧
    (statAdd sampleCollab exG .pynone).2 = exG :=
  ⟨⟨.typeMismatch, by decide⟩,
    (stat_atomicity_amended sampleCollab exG exG .pynone).1
      ⟨.typeMismatch, by decide⟩⟩

/-- C7: `Stat.__add__` raises `TypeError` for a non-`Stat` operand and
`ValueError` (unit mismatch) for differing units, both before any
mutation; for matching units it replaces the receiver's data with the
element-wise sum, leaves the unit unchanged, and returns `None`. -/
theorem stat_add_spec (C : StatCollab) (s o : Stat) (v : PyVal) :
    ((∀ t, v ≠ .stat t) → statAdd C s v = (.error .typeMismatch, s)) ∧
    (s.unit ≠ o.unit → statAdd C s (.stat o) = (.error .unitMismatch, s)) ∧
    (s.data.length = o.data.length → s.unit = o.unit →
      (statAdd C s (.stat o)).1 = .ok .pynone ∧
      (statAdd C s (.stat o)).2.data = List.zipWith (· + ·) s.data o.data ∧
      (statAdd C s (.stat o)).2.unit = s.unit) := by
  refine ⟨?_, ?_, ?_⟩
  · intro hv
    cases v with
    | stat t => exact absurd rfl (hv t)
    | pynone => rfl
    | someOther => rfl
  · intro h
    simp [statAdd, h]
  · intro hlen h
    simp [statAdd, h, Stat.recompute]

/-- Witness for `stat_add_spec`: adding the `"g"` Stat and the `"mL"`
Stat raises the unit-mismatch error and leaves the receiver unchanged. -/
theorem stat_add_spec_witness :
    exG.unit ≠ exML.unit ∧
    statAdd sampleCollab exG (.stat exML) = (.error .unitMismatch, exG) :=
  ⟨by decide, (stat_add_spec sampleCollab exG exML .pynone).2.1 (by decide)⟩

/-- C10: each of the four Stat operators returns `None` on success, so
the value of an expression like `a + b` is `None` rather than a `Stat`,
and chaining it, e.g. `(a + b) + c`, applies `+` to `None` and raises
`TypeError`. -/
theorem stat_ops_return_none (C : StatCollab) (s : Stat) (v w : PyVal) :
    ((statAdd C s v).1 = .ok w → w = .pynone) ∧
    ((statSub C s v).1 = .ok w → w = .pynone) ∧
    ((statMul C s v).1 = .ok w → w = .pynone) ∧
    ((statDiv C s v).1 = .ok w → w = .pynone) ∧
    (pyAdd C (.stat s) v = .ok w → ∀ u, pyAdd C w u = .error .typeMismatch) := by
  have hadd : (statAdd C s v).1 = .ok w → w = .pynone := by
    intro h
    cases v with
    | stat o =>
      by_cases hunit : s.unit = o.unit
      · simp [statAdd, hunit] at h
        exact h.symm
      · simp [statAdd, hunit] at h
    | pynone => simp [statAdd] at h
    | someOther => simp [statAdd] at h
  have hsub : (statSub C s v).1 = .ok w → w = .pynone := by
    intro h
    cases v with
    | stat o =>
      by_cases hunit : s.unit = o.unit
      · simp [statSub, hunit] at h
        exact h.symm
      · simp [statSub, hunit] at h
    | pynone => simp [statSub] at h
    | someOther => simp [statSub] at h
  have hmul : (statMul C s v).1 = .ok w → w = .pynone := by
    intro h
    cases v with
    | stat o =>
      cases hsu : s.unit with
      | none => simp [statMul, hsu] at h
      | some a =>
        cases hou : o.unit with
        | none => simp [statMul, hsu, hou] at h
        | some b =>
          cases huc : units_combining [a, b] '*' with
          | ok u =>
            simp [statMul, hsu, hou, huc] at h
            exact h.symm
          | error e => simp [statMul, hsu, hou, huc] at h
    | pynone => simp [statMul] at h
    | someOther => simp [statMul] at h
  have hdiv : (statDiv C s v).1 = .ok w → w = .pynone := by
    intro h
    cases v with
    | stat o =>
      by_cases hz : (s.data.zip o.data).any (fun p => p.2 == 0)
      · simp [statDiv, hz] at h
      · cases hsu : s.unit with
        | none => simp [statDiv, hz, hsu] at h
        | some a =>
          cases hou : o.unit with
          | none => simp [statDiv, hz, hsu, hou] at h
          | some b =>
            cases huc : units_combining [a, b] '/' with
            | ok u =>
              simp [statDiv, hz, hsu, hou, huc] at h
              exact h.symm
            | error e => simp [statDiv, hz, hsu, hou, huc] at h
    | pynone => simp [statDiv] at h
    | someOther => simp [statDiv] at h
  refine ⟨hadd, hsub, hmul, hdiv, ?_⟩
  intro h u
  have hw : w = .pynone := hadd (by simpa [pyAdd] using h)
  subst hw
  rfl

/-- Witness for `stat_ops_return_none`: `exG + exG2` evaluates to `None`,
and feeding that `None` into a second `+` raises `TypeError`. -/
theorem stat_ops_return_none_witness :
    pyAdd sampleCollab (.stat exG) (.stat exG2) = .ok .pynone ∧
    pyAdd sampleCollab .pynone (.stat exG2) = .error .typeMismatch :=
  ⟨by decide,
    (stat_ops_return_none sampleCollab exG (.stat exG2) .pynone).2.2.2.2
      (by decide) (.stat exG2)⟩

/-- C5: for every `GrowthMonitoring` built from strictly positive
quantities and strictly increasing times, the growth rate at index 0 is
exactly 0 and every growth rate is nonnegative (a negative computed rate
is clamped to exactly 0). -/
theorem growth_rates_nonneg (data time : List ℝ)
    (hpos : ∀ x ∈ data, 0 < x) (hinc : List.Chain' (· < ·) time) :
    (growthRates data time).getD 0 0 = 0 ∧
    ∀ r ∈ growthRates data time, 0 ≤ r := by
  refine ⟨rfl, ?_⟩
  intro r hr
  simp only [growthRates, List.mem_cons] at hr
  rcases hr with h | h
  · exact h ▸ le_rfl
  · rcases List.mem_map.mp h with ⟨i, _, rfl⟩
    have hnn : ∀ d : ℝ, (0 : ℝ) ≤ if d < 0 then 0 else d := by
      intro d
      split
      · exact le_rfl
      · exact le_of_not_lt (by assumption)
    exact hnn _

/-- Witness for `growth_rates_nonneg` at quantities `[1, 2]`,
times `[0, 1]`. -/
theorem growth_rates_nonneg_witness :
    (∀ x ∈ [(1 : ℝ), 2], 0 < x) ∧ List.Chain' (· < ·) [(0 : ℝ), 1] ∧
    ((growthRates [(1 : ℝ), 2] [(0 : ℝ), 1]).getD 0 0 = 0 ∧
      ∀ r ∈ growthRates [(1 : ℝ), 2] [(0 : ℝ), 1], 0 ≤ r) :=
  ⟨by norm_num, by norm_num [List.chain'_cons],
    growth_rates_nonneg _ _ (by norm_num) (by norm_num [List.chain'_cons])⟩

/-- C6: the doubling time at index `i` equals `log 2 / rate[i]` when
`rate[i] ≠ 0` and the sentinel 0 otherwise; concretely, for
`quantities = [100, 200]`, `times = [0, 10]` the rates are
`[0, log 2 / 10]` and the doubling times `[0, 10]`, and for the flat
series `[100, 100]` the rates are `[0, 0]` and the doubling times
`[0, 0]`. -/
theorem doubling_time_spec :
    (∀ (mu : List ℝ) (i : ℕ), i < mu.length →
      (doublingTimes mu).getD i 0 =
        if mu.getD i 0 ≠ 0 then Real.log 2 / mu.getD i 0 else 0) ∧
    growthRates [(100 : ℝ), 200] [(0 : ℝ), 10] = [0, Real.log 2 / 10] ∧
    doublingTimes (growthRates [(100 : ℝ), 200] [(0 : ℝ), 10]) = [0, 10] ∧
    growthRates [(100 : ℝ), 100] [(0 : ℝ), 10] = [0, 0] ∧
    doublingTimes (growthRates [(100 : ℝ), 100] [(0 : ℝ), 10]) = [0, 0] := by
  have hgen : ∀ (mu : List ℝ) (i : ℕ), i < mu.length →
      (doublingTimes mu).getD i 0 =
        if mu.getD i 0 ≠ 0 then Real.log 2 / mu.getD i 0 else 0 := by
    intro mu i hi
    have h1 : i < (doublingTimes mu).length := by
      simpa [doublingTimes] using hi
    rw [List.getD_eq_getElem _ 0 h1, List.getD_eq_getElem _ 0 hi]
    simp [doublingTimes]
  have hlog2 : Real.log 200 - Real.log 100 = Real.log 2 := by
    rw [← Real.log_div (by norm_num) (by norm_num)]
    norm_num
  have hpos : 0 < Real.log 2 := Real.log_pos (by norm_num)
  have hr1 : growthRates [(100 : ℝ), 200] [(0 : ℝ), 10] =
      [0, if (Real.log 200 - Real.log 100) / ((10 : ℝ) - 0) < 0 then 0
          else (Real.log 200 - Real.log 100) / ((10 : ℝ) - 0)] := rfl
  have hd1 : (Real.log 200 - Real.log 100) / ((10 : ℝ) - 0) = Real.log 2 / 10 := by
    rw [hlog2]
    norm_num
  have hr1e : growthRates [(100 : ℝ), 200] [(0 : ℝ), 10] = [0, Real.log 2 / 10] := by
    rw [hr1, hd1, if_neg (not_lt.mpr (le_of_lt (div_pos hpos (by norm_num))))]
  have htd1 : doublingTimes [0, Real.log 2 / 10] = [(0 : ℝ), 10] := by
    simp only [doublingTimes, List.map_cons, List.map_nil]
    rw [if_neg (by simp), if_pos (ne_of_gt (div_pos hpos (by norm_num)))]
    rw [div_div_eq_mul_div, mul_comm, mul_div_assoc, div_self (ne_of_gt hpos),
      mul_one]
  have hr2 : growthRates [(100 : ℝ), 100] [(0 : ℝ), 10] =
      [0, if (Real.log 100 - Real.log 100) / ((10 : ℝ) - 0) < 0 then 0
          else (Real.log 100 - Real.log 100) / ((10 : ℝ) - 0)] := rfl
  have hd2 : (Real.log 100 - Real.log 100) / ((10 : ℝ) - 0) = 0 := by
    rw [sub_self, zero_div]
  have hr2e : growthRates [(100 : ℝ), 100] [(0 : ℝ), 10] = [0, 0] := by
    rw [hr2, hd2, if_neg (lt_irrefl 0)]
  have htd2 : doublingTimes [(0 : ℝ), 0] = [0, 0] := by
    simp [doublingTimes]
  exact ⟨hgen, hr1e, by rw [hr1e, htd1], hr2e, by rw [hr2e, htd2]⟩

/-- Witness for `doubling_time_spec` at the one-element rate list `[5]`. -/
theorem doubling_time_spec_witness :
    0 < [(5 : ℝ)].length ∧
    (doublingTimes [(5 : ℝ)]).getD 0 0 =
      if ([(5 : ℝ)].getD 0 0) ≠ 0 then Real.log 2 / ([(5 : ℝ)].getD 0 0) else 0 :=
  ⟨by norm_num, doubling_time_spec.1 [(5 : ℝ)] 0 (by norm_num)⟩

example : units_combining [['g'], ['m', 'L']] '*' = .ok ['g', '.', 'm', 'L'] := by decide
example : units_combining [['g'], ['m', 'L']] '/' = .ok ['g', '/', 'm', 'L'] := by decide
example : units_combining [['g'], ['m', '/', 's']] '*' = .error .indexError := by decide
example : units_combining [['g', '/', 's'], ['m']] '*' = .error .indexError := by decide
example : units_combining [['g', '.', 'm', 'L'], ['m', 'L']] '/' = .ok ['g'] := by decide
example : units_combining [['g'], ['g']] '/' = .ok [] := by decide
example : units_combining [['g', '/', 's'], ['g', '/', 's']] '/' = .ok [] := by decide
example : units_combining [['a', '/', 'b'], ['c', '/', 'd']] '*' = .ok ['a', '.', 'c', '/', 'b', '.', 'd'] := by decide
example : (statMul sampleCollab exG (.stat exMS)).1 = .error (.uerr .indexError) := by decide
example : (statMul sampleCollab exG (.stat exMS)).2.data = [6] := by
  have h : units_combining [['g'], ['m', '/', 's']] '*' = .error .indexError := by decide
  simp [statMul, exG, exMS, Stat.make, Stat.recompute, sampleCollab, h]
  norm_num
example : (get_ufc_per_ml [(-5, some 354), (-6, some 35), (-7, some 3)]).1 =
    some 35200000 := by
  have h : valid_ufcs [(-5, some 354), (-6, some 35), (-7, some 3)] =
      [35400000, 35000000] := by
    simp only [valid_ufcs, List.filterMap_cons, List.filterMap_nil]
    norm_num
  simp [get_ufc_per_ml, h, mean]
  norm_num
example : get_ufc_per_ml [(-4, none), (-7, some 3)] = (none, none) := by decide
